import Mathlib

/-!
# Verification of the AI-DataParser dynamic extraction pipeline

A shallow embedding of `src/extractor.py` (class `DynamicExtractor`) and the
relevant parts of `cli.py`.  External collaborators (the Ollama model endpoint,
file I/O, the JSON text parser and the pydantic validation engine) are not part
of the repository's source; following the specification they are modelled as
explicit oracles (`Except`-valued parameters, a `ParseResult` input) or, where
the specification describes their behaviour, as functions marked
`Modelled from the spec`.
-/

set_option autoImplicit false

namespace AIDataParser

/-! ## JSON values

JSON numbers are split into integer and non-integer literals the way Python's
parser separates `int` and `float`; decimal literals are represented exactly
as rationals. -/

inductive Json where
  | null
  | bool (b : Bool)
  | int (n : Int)
  | float (q : Rat)
  | str (s : String)
  | arr (elems : List Json)
  | obj (fields : List (String × Json))

/-- A validated record, as produced by `model_dump()`: an ordered mapping from
field name to value (insertion order = model field order). -/
abbrev Record := List (String × Json)

/-- One element of the list returned by the processing operations: the pair
of the `input` context and the dumped `response` record built by
`_extract_structured_data`. -/
structure ExtractionResult where
  input : String
  response : Record

/-- The observable outcome of one operation of `DynamicExtractor`: the returned
result list together with the error messages printed to the rich console. -/
structure OpResult where
  results : List ExtractionResult
  errors : List String

instance : Append OpResult :=
  ⟨fun a b => ⟨a.results ++ b.results, a.errors ++ b.errors⟩⟩

/-! ## String helpers

Executable character-level models of the Python string primitives the source
uses (`in`, `split`, `strip`, `lower`, `os.path.splitext`, `os.path.basename`).
-/

/-- Predicate for `pat` occurring as a contiguous subsequence of `cs`; model
of Python's `pat in s` on strings. -/
def containsSub (pat : List Char) : List Char → Bool
  | [] => pat.isEmpty
  | c :: cs => pat.isPrefixOf (c :: cs) || containsSub pat cs

/-- Python `pat in s` for strings. -/
def strContains (s pat : String) : Bool :=
  containsSub pat.data s.data

/-- Splitter for Python's `s.split(sep)` with a non-empty separator, structural
in a fuel argument so that it evaluates by kernel reduction. -/
def splitAux (sep : List Char) : Nat → List Char → List (List Char)
  | _, [] => [[]]
  | 0, cs => [cs]
  | fuel + 1, c :: cs =>
    if sep.isPrefixOf (c :: cs) then
      [] :: splitAux sep fuel ((c :: cs).drop sep.length)
    else
      match splitAux sep fuel cs with
      | [] => [[c]]
      | r :: rs => (c :: r) :: rs

/-- Python `s.split(sep)` (non-empty `sep`). -/
def pySplit (s sep : String) : List String :=
  (splitAux sep.data s.data.length s.data).map String.mk

/-- Python `text.strip()` is falsy exactly when every character is
whitespace; model of the strip-and-test guards of the bulk loops. -/
def isBlank (s : String) : Bool :=
  s.data.all Char.isWhitespace

/-- Python `s.lower()` (ASCII; the source only lowercases file extensions). -/
def lowerStr (s : String) : String :=
  ⟨s.data.map Char.toLower⟩

/-- Python `os.path.basename`: the part of the path after the last `/`. -/
def pyBasename (p : String) : String :=
  (pySplit p "/").getLastD p

/-- The characters after the last `.` of a list, if any. -/
def afterLastDot : List Char → Option (List Char)
  | [] => none
  | c :: cs =>
    match afterLastDot cs with
    | some r => some r
    | none => if c == '.' then some cs else none

/-- Modelled from the spec: `os.path.splitext(path)[1]` — the extension of the
final path component, where leading dots of the component never start an
extension (`os.path` is library code, not part of this repository). -/
def extOf (path : String) : String :=
  let base := pyBasename path
  match afterLastDot (base.data.dropWhile (· == '.')) with
  | some ext => "." ++ String.mk ext
  | none => ""

/-! ## Schema builder (`DynamicExtractor.get_dynamic_model`) -/

/-- The four primitive annotations `str`, `int`, `float`, `bool` used by
`get_dynamic_model`. -/
inductive Prim where
  | str
  | int
  | float
  | bool
deriving DecidableEq

/-- A resolved field annotation: a primitive or `List[primitive]`. -/
inductive FieldType where
  | prim (p : Prim)
  | listOf (p : Prim)
deriving DecidableEq

/-- One user-declared field as collected by `cli.py`: a dict with the keys
`name`, `type` and `optional`. -/
structure FieldSpec where
  name : String
  type : String
  optional : Bool

/-- One entry of the dynamically built pydantic model: field name, resolved
annotation, and the optional flag (optional fields get default `None`). -/
abbrev ModelField := String × FieldType × Bool

/-- Type resolution of `get_dynamic_model` (extractor.py lines 42–57):
equality tests for the bare primitives, then Python `in` substring tests for
`list`, `int`, `float`, `bool`, with `str` as the permissive default. -/
def resolveFieldType (t : String) : FieldType :=
  if t == "int" then .prim .int
  else if t == "float" then .prim .float
  else if t == "bool" then .prim .bool
  else if strContains t "list" then
    .listOf
      (if strContains t "int" then .int
       else if strContains t "float" then .float
       else if strContains t "bool" then .bool
       else .str)
  else .prim .str

/-- One dict assignment of the `get_dynamic_model` loop, storing the resolved
type and default under the field name: Python dict assignment keeps the
position of an existing key and overwrites its value, and appends a new key
at the end. -/
def insertModelField (mf : List ModelField) (entry : ModelField) : List ModelField :=
  if mf.any (fun e => e.1 == entry.1) then
    mf.map (fun e => if e.1 == entry.1 then (e.1, entry.2) else e)
  else
    mf ++ [entry]

/-- Embedding of `DynamicExtractor.get_dynamic_model` (extractor.py lines
38–63): builds the
ordered field table of the dynamic pydantic model.  It performs no validation
of the field list. -/
def get_dynamic_model (fields : List FieldSpec) : List ModelField :=
  fields.foldl
    (fun acc f => insertModelField acc (f.name, resolveFieldType f.type, f.optional))
    []

/-! ## Response validation (`DynamicExtractor._extract_structured_data`)

The raw response string is parsed by the external JSON parser (out of scope
per the specification); a `ParseResult` records its outcome.  The validation
of the parsed value against the dynamic model `EntitiesList{Entities:
list[Entity]}` is performed by pydantic, an external library; its semantics
on the models this program builds is modelled from the spec (§4.2): every
required field must be present, present fields must have a compatible JSON
type (integer literals are accepted for `float` fields), omitted optional
fields default to `None`, extra keys are ignored. -/

/-- Outcome of the external JSON text parser on the raw response string. -/
inductive ParseResult where
  | ok (j : Json)
  | syntaxError (detail : String)

/-- The two failure kinds of the Response Validator. -/
inductive FailureKind where
  | malformedJson
  | schemaMismatch
deriving DecidableEq

/-- A structured validation failure. -/
structure ValidationFailure where
  kind : FailureKind
  detail : String
deriving DecidableEq

/-- Lookup in a JSON object: Python's JSON decoder builds a dict, so the value
of the *last* occurrence of a key wins. -/
def lookupLast (key : String) : List (String × Json) → Option Json
  | [] => none
  | (k, v) :: rest =>
    match lookupLast key rest with
    | some r => some r
    | none => if k == key then some v else none

/-- Modelled from the spec: pydantic coercion of one JSON value to a primitive
annotation — exact type match, plus integer literals accepted for `float`
(and integral floats for `int`). -/
def coercePrim : Prim → Json → Option Json
  | .str, .str s => some (.str s)
  | .int, .int n => some (.int n)
  | .int, .float q => if q.den == 1 then some (.int q.num) else none
  | .float, .int n => some (.float (n : Rat))
  | .float, .float q => some (.float q)
  | .bool, .bool b => some (.bool b)
  | _, _ => none

/-- Elementwise coercion of a JSON array to `List[primitive]`. -/
def coerceList (p : Prim) : List Json → Option (List Json)
  | [] => some []
  | x :: xs =>
    match coercePrim p x, coerceList p xs with
    | some y, some ys => some (y :: ys)
    | _, _ => none

/-- Coercion of one JSON value to a resolved field annotation. -/
def coerceValue : FieldType → Json → Option Json
  | .prim p, v => coercePrim p v
  | .listOf p, .arr xs => (coerceList p xs).map .arr
  | .listOf _, _ => none

/-- Validation of one JSON object against the model's field table, in field
order, producing the dumped record: a missing required field fails the whole
element, a missing optional field dumps as `null`, extra keys are ignored. -/
def validateFields : List ModelField → List (String × Json) →
    Except ValidationFailure Record
  | [], _ => .ok []
  | (n, t, opt) :: rest, o =>
    match lookupLast n o with
    | some v =>
      match coerceValue t v with
      | some v2 => (validateFields rest o).map (fun r => (n, v2) :: r)
      | none => .error ⟨.schemaMismatch, "wrong type for field " ++ n⟩
    | none =>
      if opt then (validateFields rest o).map (fun r => (n, Json.null) :: r)
      else .error ⟨.schemaMismatch, "missing required field " ++ n⟩

/-- Validation of one array element: it must be a JSON object. -/
def validateElement (fields : List ModelField) : Json →
    Except ValidationFailure Record
  | .obj o => validateFields fields o
  | _ => .error ⟨.schemaMismatch, "element is not an object"⟩

/-- Validation of the `Entities` array, all-or-nothing: the first failing
element fails the whole call. -/
def validateAll (fields : List ModelField) : List Json →
    Except ValidationFailure (List Record)
  | [] => .ok []
  | e :: es =>
    match validateElement fields e with
    | .ok r => (validateAll fields es).map (fun rs => r :: rs)
    | .error f => .error f

/-- Validation of the parsed top level against
`EntitiesList{Entities: list[Entity]}`: a single required key `Entities`
holding an array. -/
def modelValidate (fields : List ModelField) : Json →
    Except ValidationFailure (List Record)
  | .obj o =>
    match lookupLast "Entities" o with
    | some (.arr es) => validateAll fields es
    | some _ => .error ⟨.schemaMismatch, "Entities is not a list"⟩
    | none => .error ⟨.schemaMismatch, "missing required field Entities"⟩
  | _ => .error ⟨.schemaMismatch, "top level is not an object"⟩

/-- The Response Validator of spec §4.2: `EntitiesList.model_validate_json`
on the raw response.  A syntactically invalid response is the
`MALFORMED_JSON` failure; every failure against the schema is a
`SCHEMA_MISMATCH` failure. -/
def validate (schema : List ModelField) : ParseResult →
    Except ValidationFailure (List Record)
  | .syntaxError d => .error ⟨.malformedJson, d⟩
  | .ok j => modelValidate schema j

/-- The console line printed by `_extract_structured_data` when validation
fails. -/
def validationErrorMessage (f : ValidationFailure) : String :=
  "Validation Error: " ++ f.detail

/-- Embedding of `DynamicExtractor._extract_structured_data` (extractor.py
lines 65–97):
builds the dynamic model, validates the parsed response, and on success wraps
each dumped record with the input context; any validation failure is caught,
printed, and turned into an empty result list. -/
def extract_structured_data (fieldSpecs : List FieldSpec) (parsed : ParseResult)
    (inputContext : String) : OpResult :=
  match validate (get_dynamic_model fieldSpecs) parsed with
  | .ok recs => ⟨recs.map (fun r => ⟨inputContext, r⟩), []⟩
  | .error f => ⟨[], [validationErrorMessage f]⟩

/-! ### Spec-side definitions for the round-trip claim -/

/-- Strict (exact) typing of a JSON value at a primitive annotation. -/
def strictPrim : Prim → Json → Bool
  | .str, .str _ => true
  | .int, .int _ => true
  | .float, .float _ => true
  | .bool, .bool _ => true
  | _, _ => false

/-- Strict typing at a resolved annotation. -/
def strictValue : FieldType → Json → Bool
  | .prim p, v => strictPrim p v
  | .listOf p, .arr xs => xs.all (strictPrim p)
  | .listOf _, _ => false

/-- Well-formedness of one array element per spec §8: an object in which
every required field is present and every present schema field carries a
correctly-typed value. -/
def wellFormedElem (fields : List ModelField) : Json → Bool
  | .obj o =>
    fields.all (fun nt =>
      match lookupLast nt.1 o with
      | some v => strictValue nt.2.1 v
      | none => nt.2.2)
  | _ => false

/-- Spec-side expected record for a well-formed element: one entry per schema
field, in schema order, the element's value preserved exactly and `null` for
an omitted optional field. -/
def specDump (fields : List ModelField) : Json → Record
  | .obj o => fields.map (fun nt => (nt.1, (lookupLast nt.1 o).getD Json.null))
  | _ => []

/-! ## Extraction orchestrator operations

`process_text` performs a model round-trip; the external pieces (file system,
Ollama chat call, JSON parser) enter as `Except`-valued oracles, and the
per-unit text processing enters bulk mode as an oracle `String → OpResult`. -/

/-- Embedding of `DynamicExtractor.process_image` (extractor.py lines
137–174): open the
image file, send its bytes to the vision model, and thread the response
content through `_extract_structured_data`, tagging results with the file's
basename.  Any exception from the `open` or the chat call is caught at this
boundary, printed, and turned into an empty result list. -/
def process_image (openFile : Except String (List Nat))
    (chat : List Nat → Except String String)
    (parse : String → ParseResult)
    (fieldSpecs : List FieldSpec) (imagePath : String) : OpResult :=
  match openFile with
  | .error e => ⟨[], ["Error processing image: " ++ e]⟩
  | .ok bytes =>
    match chat bytes with
    | .error e => ⟨[], ["Error processing image: " ++ e]⟩
    | .ok content =>
      extract_structured_data fieldSpecs (parse content) (pyBasename imagePath)

/-- The contents of a bulk input file: the raw text (used for `.txt`) and its
rows as produced by the external `csv.reader` (used for `.csv`). -/
structure BulkFile where
  raw : String
  csvRows : List (List String)

/-- Embedding of `DynamicExtractor.process_bulk_text` (extractor.py lines
176–213):
dispatch on the lowercased extension; for `.txt` split the contents on the
literal `",,"`, for `.csv` join each row's columns with single spaces; feed
every unit whose `strip()` is non-empty to `process_text` in order,
accumulating results.  A path with any other extension falls through the
`if`/`elif` chain and returns the (empty) accumulator with no message. -/
def process_bulk_text (filePath : String) (file : BulkFile)
    (processText : String → OpResult) : OpResult :=
  let ext := lowerStr (extOf filePath)
  if ext == ".txt" then
    (pySplit file.raw ",,").foldl
      (fun acc t => if !isBlank t then acc ++ processText t else acc) ⟨[], []⟩
  else if ext == ".csv" then
    (file.csvRows.map (fun row => " ".intercalate row)).foldl
      (fun acc t => if !isBlank t then acc ++ processText t else acc) ⟨[], []⟩
  else ⟨[], []⟩

/-! ## Presentation layer (`DynamicExtractor.export_results`) -/

/-- The observable effect of one `export_results` call: the file written with
its content, or a console message with no write. -/
inductive ExportEffect where
  | jsonWrite (path : String) (results : List ExtractionResult)
  | csvWrite (path : String) (header : List String) (results : List ExtractionResult)
  | notice (msg : String)
  | unsupported (msg : String)

/-- Embedding of `DynamicExtractor.export_results` (extractor.py lines
285–339): dispatch
on the lowercased extension; `.csv` with an empty result list prints
`No results to export.` and returns before opening the file; otherwise the
CSV header is `input` followed by the first result's response keys; an
unrecognized extension prints an unsupported-format message and writes
nothing. -/
def export_results (results : List ExtractionResult) (outputFile : String) :
    ExportEffect :=
  let ext := lowerStr (extOf outputFile)
  if ext == ".json" then .jsonWrite outputFile results
  else if ext == ".csv" then
    match results with
    | [] => .notice "No results to export."
    | r :: rs => .csvWrite outputFile ("input" :: r.response.map Prod.fst) (r :: rs)
  else .unsupported ("Unsupported file format: " ++ ext ++ ". Use .json or .csv")

/-! ## Further definitions used in the statements -/

/-- First-match lookup in the model's field table (its keys are distinct by
construction). -/
def lookupMF (n : String) : List ModelField → Option (FieldType × Bool)
  | [] => none
  | e :: rest => if e.1 == n then some e.2 else lookupMF n rest

/-- The last field spec of the list carrying a given name, if any — the
occurrence whose dict assignment wins in `get_dynamic_model`. -/
def lastSpecNamed (n : String) : List FieldSpec → Option FieldSpec
  | [] => none
  | f :: rest =>
    match lastSpecNamed n rest with
    | some g => some g
    | none => if f.name == n then some f else none

/-! ## General lemmas -/

@[simp] theorem OpResult.append_def (a b : OpResult) :
    a ++ b = ⟨a.results ++ b.results, a.errors ++ b.errors⟩ := rfl

@[simp] theorem OpResult.empty_append (x : OpResult) :
    (⟨[], []⟩ : OpResult) ++ x = x := by
  cases x
  simp

/-- Folding an accumulate-if step equals folding the accumulate step over the
filtered list. -/
theorem foldl_accum_filter {α : Type} (p : α → Bool) (f : α → OpResult) :
    ∀ (l : List α) (acc : OpResult),
      l.foldl (fun a t => if p t then a ++ f t else a) acc =
        (l.filter p).foldl (fun a t => a ++ f t) acc := by
  intro l
  induction l with
  | nil => intro acc; rfl
  | cons x xs ih =>
    intro acc
    by_cases h : p x = true
    · simp only [List.foldl_cons, List.filter_cons, if_pos h]
      exact ih _
    · simp only [List.foldl_cons, List.filter_cons, if_neg h]
      exact ih _

/-! ## Lemmas about the validator -/
theorem except_map_error {ε α β : Type} (g : α → β) (x : Except ε α) (f : ε)
    (h : x.map g = .error f) : x = .error f := by
  cases x <;> simp_all [Except.map]

theorem except_map_ok {ε α β : Type} (g : α → β) (x : Except ε α) (b : β)
    (h : x.map g = .ok b) : ∃ a, x = .ok a ∧ g a = b := by
  cases x <;> simp_all [Except.map]

theorem coercePrim_of_strict (p : Prim) (v : Json) (h : strictPrim p v = true) :
    coercePrim p v = some v := by
  cases p <;> cases v <;> simp_all [strictPrim, coercePrim]

theorem coerceList_of_strict (p : Prim) (xs : List Json)
    (h : ∀ x ∈ xs, strictPrim p x = true) : coerceList p xs = some xs := by
  induction xs with
  | nil => rfl
  | cons x xs ih =>
    simp [coerceList, coercePrim_of_strict p x (h x (List.mem_cons_self _ _)),
      ih fun y hy => h y (List.mem_cons_of_mem _ hy)]

theorem coerceValue_of_strict (t : FieldType) (v : Json)
    (h : strictValue t v = true) : coerceValue t v = some v := by
  cases t with
  | prim p => exact coercePrim_of_strict p v h
  | listOf p =>
    cases v with
    | arr xs =>
      simp only [strictValue, List.all_eq_true] at h
      simp [coerceValue, coerceList_of_strict p xs h]
    | null => simp [strictValue] at h
    | bool b => simp [strictValue] at h
    | int n => simp [strictValue] at h
    | float q => simp [strictValue] at h
    | str s => simp [strictValue] at h
    | obj o => simp [strictValue] at h

theorem validateFields_of_wf (fields : List ModelField)
    (o : List (String × Json))
    (h : ∀ nt ∈ fields,
      (match lookupLast nt.1 o with
       | some v => strictValue nt.2.1 v
       | none => nt.2.2) = true) :
    validateFields fields o =
      .ok (fields.map fun nt => (nt.1, (lookupLast nt.1 o).getD Json.null)) := by
  induction fields with
  | nil => rfl
  | cons nt rest ih =>
    obtain ⟨n, t, opt⟩ := nt
    have hh := h _ (List.mem_cons_self _ _)
    have hr := fun nt hm => h nt (List.mem_cons_of_mem _ hm)
    cases hl : lookupLast n o with
    | some v =>
      simp only [hl] at hh
      simp [validateFields, hl, coerceValue_of_strict t v hh, ih hr, Except.map]
    | none =>
      simp only [hl] at hh
      simp [validateFields, hl, hh, ih hr, Except.map]

theorem validateElement_of_wf (fields : List ModelField) (e : Json)
    (h : wellFormedElem fields e = true) :
    validateElement fields e = .ok (specDump fields e) := by
  cases e with
  | obj o =>
    simp only [wellFormedElem, List.all_eq_true] at h
    exact validateFields_of_wf fields o h
  | null => simp [wellFormedElem] at h
  | bool b => simp [wellFormedElem] at h
  | int n => simp [wellFormedElem] at h
  | float q => simp [wellFormedElem] at h
  | str s => simp [wellFormedElem] at h
  | arr xs => simp [wellFormedElem] at h

theorem validateAll_of_wf (fields : List ModelField) (elems : List Json)
    (h : ∀ e ∈ elems, wellFormedElem fields e = true) :
    validateAll fields elems = .ok (elems.map (specDump fields)) := by
  induction elems with
  | nil => rfl
  | cons e es ih =>
    have he := validateElement_of_wf fields e (h e (List.mem_cons_self _ _))
    have hr := ih fun x hx => h x (List.mem_cons_of_mem _ hx)
    simp [validateAll, he, hr, Except.map]

theorem validateFields_error_kind (fields : List ModelField)
    (o : List (String × Json)) :
    ∀ f, validateFields fields o = .error f → f.kind = .schemaMismatch := by
  induction fields with
  | nil => intro f h; simp [validateFields] at h
  | cons nt rest ih =>
    obtain ⟨n, t, opt⟩ := nt
    intro f h
    cases hl : lookupLast n o with
    | some v =>
      simp only [validateFields, hl] at h
      cases hc : coerceValue t v with
      | some v2 =>
        simp only [hc] at h
        have := except_map_error _ _ _ h
        exact ih f this
      | none =>
        simp only [hc] at h
        injection h with h
        rw [← h]
    | none =>
      simp only [validateFields, hl] at h
      cases hopt : opt with
      | true =>
        rw [hopt] at h
        simp only [if_true] at h
        have := except_map_error _ _ _ h
        exact ih f this
      | false =>
        rw [hopt] at h
        rw [if_neg Bool.false_ne_true] at h
        injection h with h
        rw [← h]

theorem validateElement_error_kind (fields : List ModelField) (e : Json) :
    ∀ f, validateElement fields e = .error f → f.kind = .schemaMismatch := by
  intro f h
  cases e <;> simp only [validateElement] at h
  case obj o => exact validateFields_error_kind fields o f h
  all_goals (injection h with h; rw [← h])

theorem validateAll_error_kind (fields : List ModelField) (es : List Json) :
    ∀ f, validateAll fields es = .error f → f.kind = .schemaMismatch := by
  induction es with
  | nil => intro f h; simp [validateAll] at h
  | cons e es ih =>
    intro f h
    rw [validateAll] at h
    cases he : validateElement fields e with
    | ok r =>
      rw [he] at h
      exact ih f (except_map_error _ _ _ h)
    | error g =>
      rw [he] at h
      injection h with h
      exact h ▸ validateElement_error_kind fields e g he

theorem validateFields_ok_opt (fields : List ModelField)
    (o : List (String × Json)) :
    ∀ r, validateFields fields o = .ok r →
      ∀ n t opt, (n, t, opt) ∈ fields → lookupLast n o = none →
        opt = true ∧ (n, Json.null) ∈ r := by
  induction fields with
  | nil => intro r _ n t opt hmem; exact absurd hmem (List.not_mem_nil _)
  | cons nt rest ih =>
    obtain ⟨n0, t0, opt0⟩ := nt
    intro r h n t opt hmem hnone
    cases hl : lookupLast n0 o with
    | some v =>
      simp only [validateFields, hl] at h
      cases hc : coerceValue t0 v with
      | some v2 =>
        simp only [hc] at h
        obtain ⟨r0, hrest, hr0⟩ := except_map_ok _ _ _ h
        rcases List.mem_cons.mp hmem with heq | hmem'
        · exfalso
          have hn : n = n0 := congrArg Prod.fst heq
          rw [hn] at hnone
          rw [hnone] at hl
          exact Option.noConfusion hl
        · obtain ⟨h1, h2⟩ := ih r0 hrest n t opt hmem' hnone
          exact ⟨h1, by rw [← hr0]; exact List.mem_cons_of_mem _ h2⟩
      | none =>
        simp only [hc] at h
        exact Except.noConfusion h
    | none =>
      simp only [validateFields, hl] at h
      cases hopt : opt0 with
      | true =>
        rw [hopt] at h
        simp only [if_true] at h
        obtain ⟨r0, hrest, hr0⟩ := except_map_ok _ _ _ h
        rcases List.mem_cons.mp hmem with heq | hmem'
        · have hn : n = n0 := congrArg Prod.fst heq
          have hopt' : opt = opt0 := congrArg (fun x => x.2.2) heq
          refine ⟨hopt'.trans hopt, ?_⟩
          rw [← hr0, hn]
          exact List.mem_cons_self _ _
        · obtain ⟨h1, h2⟩ := ih r0 hrest n t opt hmem' hnone
          exact ⟨h1, by rw [← hr0]; exact List.mem_cons_of_mem _ h2⟩
      | false =>
        rw [hopt] at h
        rw [if_neg Bool.false_ne_true] at h
        exact Except.noConfusion h

theorem validateFields_ok_keys (fields : List ModelField)
    (o : List (String × Json)) :
    ∀ r, validateFields fields o = .ok r →
      r.map Prod.fst = fields.map Prod.fst := by
  induction fields with
  | nil =>
    intro r h
    simp only [validateFields] at h
    injection h with h
    simp [← h]
  | cons nt rest ih =>
    obtain ⟨n0, t0, opt0⟩ := nt
    intro r h
    cases hl : lookupLast n0 o with
    | some v =>
      simp only [validateFields, hl] at h
      cases hc : coerceValue t0 v with
      | some v2 =>
        simp only [hc] at h
        obtain ⟨r0, hrest, hr0⟩ := except_map_ok _ _ _ h
        rw [← hr0]
        simp [ih r0 hrest]
      | none =>
        simp only [hc] at h
        exact Except.noConfusion h
    | none =>
      simp only [validateFields, hl] at h
      cases hopt : opt0 with
      | true =>
        rw [hopt] at h
        simp only [if_true] at h
        obtain ⟨r0, hrest, hr0⟩ := except_map_ok _ _ _ h
        rw [← hr0]
        simp [ih r0 hrest]
      | false =>
        rw [hopt] at h
        rw [if_neg Bool.false_ne_true] at h
        exact Except.noConfusion h

theorem validateAll_ok_src (fields : List ModelField) (es : List Json) :
    ∀ rs, validateAll fields es = .ok rs →
      (∀ e ∈ es, ∃ r, validateElement fields e = .ok r) ∧
      (∀ r ∈ rs, ∃ e ∈ es, validateElement fields e = .ok r) := by
  induction es with
  | nil =>
    intro rs h
    simp only [validateAll] at h
    injection h with h
    exact ⟨fun e he => absurd he (List.not_mem_nil _),
      fun r hr => absurd (h ▸ hr) (List.not_mem_nil _)⟩
  | cons e es ih =>
    intro rs h
    rw [validateAll] at h
    cases he : validateElement fields e with
    | ok r0 =>
      rw [he] at h
      obtain ⟨rs0, hrest, hrs0⟩ := except_map_ok _ _ _ h
      obtain ⟨ih1, ih2⟩ := ih rs0 hrest
      constructor
      · intro x hx
        rcases List.mem_cons.mp hx with rfl | hx'
        · exact ⟨r0, he⟩
        · exact ih1 x hx'
      · intro r hr
        rw [← hrs0] at hr
        rcases List.mem_cons.mp hr with rfl | hr'
        · exact ⟨e, List.mem_cons_self _ _, he⟩
        · obtain ⟨x, hx1, hx2⟩ := ih2 r hr'
          exact ⟨x, List.mem_cons_of_mem _ hx1, hx2⟩
    | error g => rw [he] at h; exact Except.noConfusion h

/-! ## Lemmas about the schema builder -/

theorem lookupMF_append (n : String) (xs ys : List ModelField) :
    lookupMF n (xs ++ ys) =
      match lookupMF n xs with
      | some v => some v
      | none => lookupMF n ys := by
  induction xs with
  | nil => simp [lookupMF]
  | cons e xs ih =>
    cases h : e.1 == n <;> simp [lookupMF, h, ih]

theorem lookupMF_map_update (mf : List ModelField) (k : String)
    (val : FieldType × Bool) (n : String) :
    lookupMF n (mf.map (fun e => if e.1 == k then (e.1, val) else e)) =
      if k == n then (lookupMF n mf).map (fun _ => val) else lookupMF n mf := by
  induction mf with
  | nil => cases k == n <;> simp [lookupMF]
  | cons e mf ih =>
    by_cases h1 : e.1 = k <;> by_cases h2 : e.1 = n
    · have hkn : k = n := by rw [← h1]; exact h2
      subst hkn
      simp [lookupMF, h1]
    · have hkn : ¬k = n := fun hx => h2 (h1.trans hx)
      simp [lookupMF, h1, h2, hkn, ih]
      simp [hkn] at ih
      exact ih
    · have hkn : ¬k = n := fun hx => h1 (h2.trans hx.symm)
      have hnk : ¬n = k := fun hx => hkn hx.symm
      simp [lookupMF, h1, h2, hkn, ih]
      simp [hnk, h2]
    · simp [lookupMF, h1, h2, ih]
      simpa using ih

theorem lookupMF_isSome_of_any (mf : List ModelField) (k : String)
    (h : mf.any (fun e => e.1 == k) = true) : ∃ v, lookupMF k mf = some v := by
  induction mf with
  | nil => simp at h
  | cons e mf ih =>
    simp only [List.any_cons, Bool.or_eq_true] at h
    cases he : e.1 == k with
    | true => exact ⟨e.2, by simp [lookupMF, he]⟩
    | false =>
      rcases h with h | h
      · rw [he] at h; exact Bool.noConfusion h
      · obtain ⟨v, hv⟩ := ih h
        exact ⟨v, by simp [lookupMF, he, hv]⟩

theorem lookupMF_none_of_any_false (mf : List ModelField) (k : String)
    (h : mf.any (fun e => e.1 == k) = false) : lookupMF k mf = none := by
  induction mf with
  | nil => rfl
  | cons e mf ih =>
    simp only [List.any_cons, Bool.or_eq_false_iff] at h
    simp [lookupMF, h.1, ih h.2]

theorem lookupMF_insert (mf : List ModelField) (entry : ModelField)
    (n : String) :
    lookupMF n (insertModelField mf entry) =
      if entry.1 == n then some entry.2 else lookupMF n mf := by
  unfold insertModelField
  cases ha : mf.any (fun e => e.1 == entry.1) with
  | true =>
    rw [if_pos rfl]
    rw [lookupMF_map_update mf entry.1 entry.2 n]
    by_cases hk : entry.1 = n
    · obtain ⟨v, hv⟩ := lookupMF_isSome_of_any mf entry.1 ha
      rw [hk] at hv
      rw [if_pos (by simp [hk]), if_pos (by simp [hk]), hv]
      rfl
    · rw [if_neg (by simp [hk]), if_neg (by simp [hk])]
  | false =>
    rw [if_neg Bool.false_ne_true]
    rw [lookupMF_append]
    by_cases hk : entry.1 = n
    · have h0 : lookupMF n mf = none := by
        rw [← hk]; exact lookupMF_none_of_any_false mf entry.1 ha
      rw [h0]
      simp [lookupMF, hk]
    · cases h0 : lookupMF n mf with
      | some v => simp [h0, hk]
      | none => simp [lookupMF, h0, hk]

theorem get_dynamic_model_foldl (fields : List FieldSpec) (n : String) :
    ∀ acc : List ModelField,
      lookupMF n (fields.foldl
        (fun acc f => insertModelField acc (f.name, resolveFieldType f.type, f.optional))
        acc) =
      match lastSpecNamed n fields with
      | some g => some (resolveFieldType g.type, g.optional)
      | none => lookupMF n acc := by
  induction fields with
  | nil => intro acc; rfl
  | cons f fs ih =>
    intro acc
    rw [List.foldl_cons, ih]
    cases hl : lastSpecNamed n fs with
    | some g => simp [lastSpecNamed, hl]
    | none =>
      simp only [lastSpecNamed, hl, lookupMF_insert]
      cases hf : f.name == n <;> simp [hf]

/-! ## The claims -/

/-- C1: For every RecordSchema and every raw response parsing to a JSON object
whose single `Entities` array holds well-formed objects (every required field
present, every present schema field correctly typed), `validate` returns
exactly one Record per array element, in array order, with each present field
value preserved exactly (round-trip identity on well-formed input). -/
theorem validate_roundtrip (fields : List ModelField) (elems : List Json)
    (h : ∀ e ∈ elems, wellFormedElem fields e = true) :
    validate fields (.ok (.obj [("Entities", .arr elems)])) =
        .ok (elems.map (specDump fields)) ∧
    (elems.map (specDump fields)).length = elems.length ∧
    (∀ o, ∀ n t opt, (n, t, opt) ∈ fields → ∀ v, lookupLast n o = some v →
       (n, v) ∈ specDump fields (.obj o)) := by
  have hE : lookupLast "Entities" [("Entities", Json.arr elems)] =
      some (Json.arr elems) := by simp [lookupLast]
  refine ⟨?_, by simp, ?_⟩
  · have hv : validate fields (.ok (.obj [("Entities", .arr elems)])) =
        validateAll fields elems := by simp [validate, modelValidate, hE]
    rw [hv, validateAll_of_wf fields elems h]
  · intro o n t opt hmem v hv
    simp only [specDump, List.mem_map]
    exact ⟨(n, t, opt), hmem, by simp [hv]⟩

/-- C1 witness: the spec's own example — schema with one required `title`
string field, response holding two conforming objects — yields the two
records with the titles preserved. -/
theorem validate_roundtrip_witness :
    (∀ e ∈ [Json.obj [("title", Json.str "A")], Json.obj [("title", Json.str "B")]],
       wellFormedElem [("title", FieldType.prim Prim.str, false)] e = true) ∧
    validate [("title", FieldType.prim Prim.str, false)]
        (.ok (.obj [("Entities", .arr [Json.obj [("title", Json.str "A")],
          Json.obj [("title", Json.str "B")]])])) =
      .ok [[("title", Json.str "A")], [("title", Json.str "B")]] := by
  constructor
  · decide
  · have h := (validate_roundtrip [("title", FieldType.prim Prim.str, false)]
      [Json.obj [("title", Json.str "A")], Json.obj [("title", Json.str "B")]]
      (by decide)).1
    rw [h]
    rfl

/-- C2: an array element that is an object missing a required field makes
`validate` fail with `SCHEMA_MISMATCH`, and the call produces zero Records —
also through `_extract_structured_data`, whatever the other elements are
(all-or-nothing). -/
theorem validate_missing_required (schema : List ModelField) (elems : List Json)
    (o : List (String × Json)) (n : String) (t : FieldType)
    (hmem : Json.obj o ∈ elems) (hf : (n, t, false) ∈ schema)
    (hmiss : lookupLast n o = none) :
    (∃ d, validate schema (.ok (.obj [("Entities", .arr elems)])) =
        .error ⟨.schemaMismatch, d⟩) ∧
    (∀ fieldSpecs ctx, get_dynamic_model fieldSpecs = schema →
       (extract_structured_data fieldSpecs
         (.ok (.obj [("Entities", .arr elems)])) ctx).results = [] ∧
       (extract_structured_data fieldSpecs
         (.ok (.obj [("Entities", .arr elems)])) ctx).errors ≠ []) := by
  have hE : lookupLast "Entities" [("Entities", Json.arr elems)] =
      some (Json.arr elems) := by simp [lookupLast]
  have hv : validate schema (.ok (.obj [("Entities", .arr elems)])) =
      validateAll schema elems := by simp [validate, modelValidate, hE]
  have herr : ∃ d, validateAll schema elems = .error ⟨.schemaMismatch, d⟩ := by
    cases hva : validateAll schema elems with
    | ok rs =>
      exfalso
      obtain ⟨h1, -⟩ := validateAll_ok_src schema elems rs hva
      obtain ⟨r, hr⟩ := h1 _ hmem
      have := (validateFields_ok_opt schema o r hr n t false hf hmiss).1
      exact Bool.noConfusion this
    | error f =>
      obtain ⟨fk, fd⟩ := f
      have hk : fk = FailureKind.schemaMismatch :=
        validateAll_error_kind schema elems ⟨fk, fd⟩ hva
      exact ⟨fd, by rw [hk]⟩
  obtain ⟨d, hd⟩ := herr
  refine ⟨⟨d, by rw [hv, hd]⟩, ?_⟩
  intro fieldSpecs ctx hgs
  rw [← hv] at hd
  simp [extract_structured_data, hgs, hd]

/-- C2 witness: the spec's own example — required `title` field, one element
carrying only `note` — fails with `SCHEMA_MISMATCH`. -/
theorem validate_missing_required_witness :
    lookupLast "title" [("note", Json.str "x")] = none ∧
    (∃ d, validate [("title", FieldType.prim Prim.str, false)]
        (.ok (.obj [("Entities", .arr [Json.obj [("note", Json.str "x")]])])) =
      .error ⟨.schemaMismatch, d⟩) :=
  ⟨rfl, (validate_missing_required [("title", FieldType.prim Prim.str, false)]
    [Json.obj [("note", Json.str "x")]] [("note", Json.str "x")] "title"
    (FieldType.prim Prim.str) (List.mem_cons_self _ _) (List.mem_cons_self _ _)
    rfl).1⟩

/-- C3: a raw input that is not syntactically valid JSON always yields the
`MALFORMED_JSON` failure and never any Record —
`_extract_structured_data` returns the empty result list with the failure
surfaced on the console. -/
theorem validate_malformed_json (schema : List ModelField)
    (fieldSpecs : List FieldSpec) (d ctx : String) :
    validate schema (.syntaxError d) = .error ⟨.malformedJson, d⟩ ∧
    extract_structured_data fieldSpecs (.syntaxError d) ctx =
      ⟨[], [validationErrorMessage ⟨.malformedJson, d⟩]⟩ :=
  ⟨rfl, rfl⟩

/-- C4 counterexample: `get_dynamic_model` does not fail on an empty field
list or a duplicate name — it silently returns a model in both cases (an
empty field table, and a single collapsed field). -/
theorem get_dynamic_model_counterexample :
    get_dynamic_model [] = [] ∧
    get_dynamic_model [⟨"dup", "str", false⟩, ⟨"dup", "int", true⟩] =
      [("dup", FieldType.prim Prim.int, true)] := by
  decide

/-- C4 (amended): `get_dynamic_model` performs no emptiness or duplicate
check: the empty field list yields a model with no fields, and duplicate
names collapse into one entry whose resolved type and optionality come from
the last occurrence (Python dict assignment). -/
theorem get_dynamic_model_no_validation :
    (∀ fields n, lookupMF n (get_dynamic_model fields) =
       (lastSpecNamed n fields).map
         (fun f => (resolveFieldType f.type, f.optional))) ∧
    get_dynamic_model [] = [] := by
  refine ⟨?_, rfl⟩
  intro fields n
  unfold get_dynamic_model
  rw [get_dynamic_model_foldl fields n []]
  cases lastSpecNamed n fields <;> simp [lookupMF]

/-- C5 counterexample: the kind string composed of the list marker and the
unrecognized primitive name `point` resolves to a list of INT (the substring
test finds `int` inside `point`), not a list of STRING. -/
theorem resolveFieldType_counterexample :
    strContains "list(point)" "list" = true ∧
    resolveFieldType "list(point)" = FieldType.listOf Prim.int ∧
    resolveFieldType "list(point)" ≠ FieldType.listOf Prim.str := by
  decide

/-- C5 (amended): the eight CLI kind strings resolve as documented; a kind
that is none of the bare primitives and contains no `list` substring falls
back to STRING; a kind containing `list` but none of `int`, `float`, `bool`
as substrings resolves to a list of STRING.  (For kinds whose unrecognized
primitive name contains a recognized one as a substring — e.g. the
counterexample — the substring test wins instead.) -/
theorem resolveFieldType_spec :
    (resolveFieldType "str" = .prim .str ∧ resolveFieldType "int" = .prim .int ∧
     resolveFieldType "float" = .prim .float ∧
     resolveFieldType "bool" = .prim .bool ∧
     resolveFieldType "list(str)" = .listOf .str ∧
     resolveFieldType "list(int)" = .listOf .int ∧
     resolveFieldType "list(float)" = .listOf .float ∧
     resolveFieldType "list(bool)" = .listOf .bool) ∧
    (∀ t, t ≠ "int" → t ≠ "float" → t ≠ "bool" → strContains t "list" = false →
       resolveFieldType t = .prim .str) ∧
    (∀ t, strContains t "list" = true → strContains t "int" = false →
       strContains t "float" = false → strContains t "bool" = false →
       resolveFieldType t = .listOf .str) := by
  refine ⟨by decide, ?_, ?_⟩
  · intro t h1 h2 h3 h4
    simp [resolveFieldType, h1, h2, h3, h4]
  · intro t hl hi hf hb
    have h1 : t ≠ "int" := by rintro rfl; revert hi; decide
    have h2 : t ≠ "float" := by rintro rfl; revert hf; decide
    have h3 : t ≠ "bool" := by rintro rfl; revert hb; decide
    simp [resolveFieldType, h1, h2, h3, hl, hi, hf, hb]

/-- C5 witness: the fallbacks at the unrecognized primitive `date`. -/
theorem resolveFieldType_spec_witness :
    ("date" ≠ "int" ∧ strContains "date" "list" = false ∧
      resolveFieldType "date" = FieldType.prim Prim.str) ∧
    (strContains "list(date)" "list" = true ∧
      resolveFieldType "list(date)" = FieldType.listOf Prim.str) :=
  ⟨⟨by decide, by decide,
     resolveFieldType_spec.2.1 "date" (by decide) (by decide) (by decide)
       (by decide)⟩,
   ⟨by decide,
     resolveFieldType_spec.2.2 "list(date)" (by decide) (by decide) (by decide)
       (by decide)⟩⟩

/-- C6: on a `.txt` path, `process_bulk_text` splits the contents on the
literal `",,"`, skips every blank unit, feeds each remaining unit to
`process_text` sequentially and concatenates in unit order; in particular the
contents splitting as two units and a trailing empty unit produce exactly the
two processed units. -/
theorem process_bulk_text_txt (path : String) (pt : String → OpResult)
    (h : lowerStr (extOf path) = ".txt") :
    pySplit "foo,,bar,," ",," = ["foo", "bar", ""] ∧
    process_bulk_text path ⟨"foo,,bar,,", []⟩ pt = pt "foo" ++ pt "bar" ∧
    (∀ contents rows,
      process_bulk_text path ⟨contents, rows⟩ pt =
        ((pySplit contents ",,").filter (fun t => !isBlank t)).foldl
          (fun acc t => acc ++ pt t) ⟨[], []⟩) := by
  have hgen : ∀ contents rows,
      process_bulk_text path (⟨contents, rows⟩ : BulkFile) pt =
        ((pySplit contents ",,").filter (fun t => !isBlank t)).foldl
          (fun acc t => acc ++ pt t) ⟨[], []⟩ := by
    intro contents rows
    simp only [process_bulk_text, h, beq_self_eq_true, if_true]
    exact foldl_accum_filter _ pt _ _
  refine ⟨by decide, ?_, hgen⟩
  rw [hgen "foo,,bar,," []]
  rw [show pySplit "foo,,bar,," ",," = ["foo", "bar", ""] from by decide]
  have h1 : (!isBlank "foo") = true := by decide
  have h2 : (!isBlank "bar") = true := by decide
  have h3 : (!isBlank "") = false := by decide
  simp [List.filter, h1, h2, h3, List.foldl]

/-- C6 witness: the concrete bulk file at a `.txt` path. -/
theorem process_bulk_text_txt_witness :
    lowerStr (extOf "notes.txt") = ".txt" ∧
    process_bulk_text "notes.txt" ⟨"foo,,bar,,", []⟩
        (fun t => ⟨[⟨t, [("unit", Json.str t)]⟩], []⟩) =
      (⟨[⟨"foo", [("unit", Json.str "foo")]⟩], []⟩ : OpResult) ++
        ⟨[⟨"bar", [("unit", Json.str "bar")]⟩], []⟩ :=
  ⟨by decide,
   (process_bulk_text_txt "notes.txt"
     (fun t => ⟨[⟨t, [("unit", Json.str t)]⟩], []⟩) (by decide)).2.1⟩

/-- C7: `process_image` converts an unopenable image file (the IOError case),
a failing model call, and a validation failure each into an empty result list
with the failure surfaced on the console; being a total function of its
oracles, it never propagates an exception past this boundary. -/
theorem process_image_failure (openFile : Except String (List Nat))
    (chat : List Nat → Except String String) (parse : String → ParseResult)
    (fieldSpecs : List FieldSpec) (imagePath : String) :
    (∀ e, openFile = .error e →
       process_image openFile chat parse fieldSpecs imagePath =
         ⟨[], ["Error processing image: " ++ e]⟩) ∧
    (∀ bytes e, openFile = .ok bytes → chat bytes = .error e →
       process_image openFile chat parse fieldSpecs imagePath =
         ⟨[], ["Error processing image: " ++ e]⟩) ∧
    (∀ bytes content f, openFile = .ok bytes → chat bytes = .ok content →
       validate (get_dynamic_model fieldSpecs) (parse content) = .error f →
       process_image openFile chat parse fieldSpecs imagePath =
         ⟨[], [validationErrorMessage f]⟩) := by
  refine ⟨?_, ?_, ?_⟩
  · rintro e rfl
    rfl
  · rintro bytes e rfl hc
    simp [process_image, hc]
  · rintro bytes content f rfl hc hv
    simp [process_image, hc, extract_structured_data, hv]

/-- C7 witness: an unopenable file at a concrete path. -/
theorem process_image_failure_witness :
    ((.error "No such file or directory" : Except String (List Nat)) =
      .error "No such file or directory") ∧
    process_image (.error "No such file or directory")
        (fun _ => .error "unused") (fun s => .syntaxError s) []
        "images/img.png" =
      ⟨[], ["Error processing image: No such file or directory"]⟩ :=
  ⟨rfl, (process_image_failure (.error "No such file or directory")
    (fun _ => .error "unused") (fun s => .syntaxError s) [] "images/img.png").1
    "No such file or directory" rfl⟩

/-- C8: exporting an empty result list to a `.csv` path performs no file
write, only the no-op notice; for a non-empty list the CSV header is `input`
followed by the first result's response keys. -/
theorem export_results_csv (path : String)
    (h : lowerStr (extOf path) = ".csv") :
    export_results [] path = .notice "No results to export." ∧
    (∀ r rs, export_results (r :: rs) path =
       .csvWrite path ("input" :: r.response.map Prod.fst) (r :: rs)) := by
  have h1 : ((".csv" : String) == ".json") = false := by decide
  have h2 : ((".csv" : String) == ".csv") = true := by decide
  constructor
  · simp [export_results, h, h1, h2]
  · intro r rs
    simp [export_results, h, h1, h2]

/-- C8 witness: the default export path with an empty and a one-element
result list. -/
theorem export_results_csv_witness :
    lowerStr (extOf "extraction_results.csv") = ".csv" ∧
    export_results [] "extraction_results.csv" =
      .notice "No results to export." ∧
    export_results [⟨"some text", [("title", Json.str "A")]⟩]
        "extraction_results.csv" =
      .csvWrite "extraction_results.csv" ["input", "title"]
        [⟨"some text", [("title", Json.str "A")]⟩] :=
  ⟨by decide, (export_results_csv "extraction_results.csv" (by decide)).1,
   (export_results_csv "extraction_results.csv" (by decide)).2
     ⟨"some text", [("title", Json.str "A")]⟩ []⟩

/-- C9 counterexample: on a path whose extension is neither `.txt` nor
`.csv`, `process_bulk_text` reports nothing — the error channel is empty and
the result list is silently empty, contrary to the claimed
`UnsupportedFormat` report. -/
theorem process_bulk_text_unsupported_counterexample :
    lowerStr (extOf "input.pdf") = ".pdf" ∧
    process_bulk_text "input.pdf" ⟨"foo", []⟩
        (fun t => ⟨[⟨t, [("title", Json.str t)]⟩], []⟩) = ⟨[], []⟩ := by
  constructor
  · decide
  · rfl

/-- C9 (amended): `process_bulk_text` on a path whose extension is neither
`.txt` nor `.csv` falls through its dispatch chain and silently returns the
empty result list, printing no error. -/
theorem process_bulk_text_unsupported (path : String) (file : BulkFile)
    (pt : String → OpResult)
    (h1 : lowerStr (extOf path) ≠ ".txt")
    (h2 : lowerStr (extOf path) ≠ ".csv") :
    process_bulk_text path file pt = ⟨[], []⟩ := by
  simp [process_bulk_text, h1, h2]

/-- C9 witness: a concrete unsupported path. -/
theorem process_bulk_text_unsupported_witness :
    lowerStr (extOf "data/input.pdf") ≠ ".txt" ∧
    lowerStr (extOf "data/input.pdf") ≠ ".csv" ∧
    process_bulk_text "data/input.pdf" ⟨"a,,b", [["x"]]⟩
        (fun t => ⟨[⟨t, []⟩], []⟩) = ⟨[], []⟩ :=
  ⟨by decide, by decide,
   process_bulk_text_unsupported "data/input.pdf" ⟨"a,,b", [["x"]]⟩
     (fun t => ⟨[⟨t, []⟩], []⟩) (by decide) (by decide)⟩

/-- C10: every Record produced by successful validation carries exactly the
schema's field names (in schema order), and a schema field absent from the
element must be optional and appears in the Record with the null sentinel. -/
theorem validated_record_complete (fields : List ModelField) :
    (∀ j recs, modelValidate fields j = .ok recs →
       ∀ r ∈ recs, r.map Prod.fst = fields.map Prod.fst) ∧
    (∀ o r, validateFields fields o = .ok r →
       ∀ n t opt, (n, t, opt) ∈ fields → lookupLast n o = none →
         opt = true ∧ (n, Json.null) ∈ r) := by
  constructor
  · intro j recs hj r hr
    cases j with
    | obj o0 =>
      simp only [modelValidate] at hj
      cases hE : lookupLast "Entities" o0 with
      | some v =>
        simp only [hE] at hj
        cases v with
        | arr es =>
          obtain ⟨-, h2⟩ := validateAll_ok_src fields es recs hj
          obtain ⟨e, -, he⟩ := h2 r hr
          cases e with
          | obj o1 => exact validateFields_ok_keys fields o1 r he
          | null => exact Except.noConfusion he
          | bool b => exact Except.noConfusion he
          | int m => exact Except.noConfusion he
          | float q => exact Except.noConfusion he
          | str s => exact Except.noConfusion he
          | arr xs => exact Except.noConfusion he
        | null => exact Except.noConfusion hj
        | bool b => exact Except.noConfusion hj
        | int m => exact Except.noConfusion hj
        | float q => exact Except.noConfusion hj
        | str s => exact Except.noConfusion hj
        | obj o1 => exact Except.noConfusion hj
      | none =>
        simp only [hE] at hj
        exact Except.noConfusion hj
    | null => exact Except.noConfusion hj
    | bool b => exact Except.noConfusion hj
    | int m => exact Except.noConfusion hj
    | float q => exact Except.noConfusion hj
    | str s => exact Except.noConfusion hj
    | arr xs => exact Except.noConfusion hj
  · intro o r h n t opt hmem hnone
    exact validateFields_ok_opt fields o r h n t opt hmem hnone

/-- C10 witness: a schema with a required and an optional field; the element
omitting the optional field validates to a record that still carries it,
bound to null. -/
theorem validated_record_complete_witness :
    validateFields
        [("a", FieldType.prim Prim.str, false), ("b", FieldType.prim Prim.int, true)]
        [("a", Json.str "x")] = .ok [("a", Json.str "x"), ("b", Json.null)] ∧
    (true = true ∧ ("b", Json.null) ∈ [("a", Json.str "x"), ("b", Json.null)]) :=
  ⟨rfl,
   (validated_record_complete
     [("a", FieldType.prim Prim.str, false), ("b", FieldType.prim Prim.int, true)]).2
     [("a", Json.str "x")] [("a", Json.str "x"), ("b", Json.null)] rfl
     "b" (FieldType.prim Prim.int) true (by simp) rfl⟩

end AIDataParser
